import Mathlib

/-!
Verification development for the Deadball roster generator
(src/components/DeadballRosterGenerator.js).

The JavaScript numbers are modelled as `ℚ` (rationals) and `Int`; the
builtin string-to-number conversions `parseFloat` / `parseInt` are embedded
as parsers of plain decimal literals returning `none` for NaN.  JavaScript
object identity (used by the source to remove a chosen batter from the
remaining pool via `p !== chosen`) is modelled by a numeric `id` field
assigned at normalization time; distinct processed records always carry
distinct ids, mirroring distinct references.  `Array.prototype.sort` with a
numeric comparator is a stable sort; since a stable sort by a total
preorder is unique, it is modelled by `List.insertionSort`, which is stable
for such comparators and is structurally recursive (so concrete rosters
evaluate inside the kernel).
-/

namespace Deadball

/-- JS truthiness of an optional string column: a missing column or the
empty string is falsy, every other string is truthy. -/
def jsTruthy : Option String → Bool
  | none => false
  | some s => s != ""

/-- Value of a digit list read in base 10. -/
def digitsToNat (ds : List Char) : Nat :=
  ds.foldl (fun a c => a * 10 + (c.toNat - 48)) 0

/-- Unsigned decimal literal: digits with an optional fractional part.
Trailing garbage is ignored, as `parseFloat` does. -/
def parseFrac (cs : List Char) : Option ℚ :=
  let ip := cs.takeWhile Char.isDigit
  let rest := cs.dropWhile Char.isDigit
  match rest with
  | '.' :: rest2 =>
      let fp := rest2.takeWhile Char.isDigit
      if ip.isEmpty && fp.isEmpty then none
      else some ((digitsToNat ip : ℚ) + (digitsToNat fp : ℚ) / ((10 : ℚ) ^ fp.length))
  | _ => if ip.isEmpty then none else some ((digitsToNat ip : ℚ))

/-- Embedding of JavaScript `parseFloat` restricted to plain decimal
literals (optional sign, digits, optional fractional part); any other
input gives NaN, modelled as `none`.  A missing column is `undefined`,
which also parses to NaN. -/
def parseFloatQ : Option String → Option ℚ
  | none => none
  | some s =>
    match s.data with
    | '-' :: cs => (parseFrac cs).map Neg.neg
    | '+' :: cs => parseFrac cs
    | cs => parseFrac cs

/-- Embedding of JavaScript `parseInt` in base 10: an optional sign then
leading digits; stops at the first non-digit (so a decimal point
truncates); no digits gives NaN, modelled as `none`. -/
def parseIntZ : Option String → Option Int
  | none => none
  | some s =>
    match s.data with
    | '-' :: cs =>
        let ds := cs.takeWhile Char.isDigit
        if ds.isEmpty then none else some (-(digitsToNat ds : Int))
    | '+' :: cs =>
        let ds := cs.takeWhile Char.isDigit
        if ds.isEmpty then none else some ((digitsToNat ds : Int))
    | cs =>
        let ds := cs.takeWhile Char.isDigit
        if ds.isEmpty then none else some ((digitsToNat ds : Int))

/-- The `x || 0` fallback of the source applied to a parse result
(NaN becomes 0; a parsed 0 stays 0, so `Option.getD` is exact). -/
def qOr0 (o : Option ℚ) : ℚ := o.getD 0

/-- The `x || 0` fallback for integer parses. -/
def zOr0 (o : Option Int) : Int := o.getD 0

/-- JavaScript `Math.round`: round half toward positive infinity. -/
def jsRound (q : ℚ) : Int := ⌊q + 1/2⌋

/-- `calcBT` from the source: `Math.round(parseFloat(avg) * 100)`,
0 when the parse is NaN. -/
def calcBT (avg : Option String) : Int :=
  match parseFloatQ avg with
  | none => 0
  | some q => jsRound (q * 100)

/-- `calcOBT` from the source: same transform applied to OBP. -/
def calcOBT (obp : Option String) : Int :=
  match parseFloatQ obp with
  | none => 0
  | some q => jsRound (q * 100)

/-- `calcPD` from the source: ERA to Pitch Die tier, `d4` on NaN,
otherwise the first strict threshold that applies. -/
def calcPD (era : Option String) : String :=
  match parseFloatQ era with
  | none => "d4"
  | some eraNum =>
    if eraNum < 2 then "d20"
    else if eraNum < 3 then "d12"
    else if eraNum < 4 then "d8"
    else if eraNum < 5 then "d4"
    else if eraNum < 6 then "-d4"
    else if eraNum < 7 then "-d8"
    else if eraNum < 8 then "-d12"
    else "-d20"

/-- `getHandedness` from the source: trailing name annotation. -/
def getHandedness : Option String → String
  | none => "R"
  | some name =>
    if name = "" then "R"
    else if name.endsWith ("*") then "L"
    else if name.endsWith ("#") then "S"
    else "R"

/-- `cleanName` from the source: strip one trailing `*` or `#`. -/
def cleanName : Option String → String
  | none => ""
  | some name =>
    if name = "" then ""
    else if name.endsWith ("*") || name.endsWith ("#") then name.dropRight 1
    else name

/-- Substring test on character lists, embedding `String.prototype.includes`. -/
def hasSubstring : List Char → List Char → Bool
  | [], needle => needle.isEmpty
  | c :: t, needle => needle.isPrefixOf (c :: t) || hasSubstring t needle

/-- `hay.includes(sub)` on strings. -/
def includesStr (hay sub : String) : Bool :=
  hasSubstring hay.data sub.data

/-- `getPosition` from the source: scan the raw position string for
substrings in the source's fixed order; a falsy string gives `UT`. -/
def getPosition (posStr : Option String) : String :=
  match posStr with
  | none => "UT"
  | some s =>
    if s = "" then "UT"
    else if includesStr s ("C") then "C"
    else if includesStr s ("1B") then "1B"
    else if includesStr s ("2B") then "2B"
    else if includesStr s ("3B") then "3B"
    else if includesStr s ("SS") then "SS"
    else if includesStr s ("LF") then "LF"
    else if includesStr s ("CF") then "CF"
    else if includesStr s ("RF") then "RF"
    else if includesStr s ("OF") then "OF"
    else if includesStr s ("DH") then "DH"
    else "UT"

/-- A raw batting row: the recognized columns, each possibly missing.
`doubles` stands for the column named 2B. -/
structure RawBattingRow where
  Player : Option String := none
  Pos : Option String := none
  BA : Option String := none
  OBP : Option String := none
  HR : Option String := none
  SLG : Option String := none
  doubles : Option String := none
  PA : Option String := none
  SO : Option String := none
  SB : Option String := none
  WAR : Option String := none
  G : Option String := none
deriving Repr, DecidableEq

/-- A raw pitching row: the recognized columns, each possibly missing. -/
structure RawPitchingRow where
  Player : Option String := none
  ERA : Option String := none
  IP : Option String := none
  SO : Option String := none
  HR : Option String := none
  BB : Option String := none
  G : Option String := none
  GS : Option String := none
deriving Repr, DecidableEq

/-- `calcBattingTraits` from the source, translated push-by-push:
each category contributes at most one tag, and the pushes are joined
with single spaces. -/
def calcBattingTraits (player : RawBattingRow) : String :=
  let hr := zOr0 (parseIntZ player.HR)
  let slg := qOr0 (parseFloatQ player.SLG)
  let powerT : List String :=
    if hr ≥ 35 ∨ slg ≥ (0.560 : ℚ) then ["P++"]
    else if hr ≥ 25 ∨ slg ≥ (0.475 : ℚ) then ["P+"]
    else if hr ≤ 5 then ["P-"]
    else []
  let doubles := zOr0 (parseIntZ player.doubles)
  let pa := zOr0 (parseIntZ player.PA)
  let kRate : ℚ := if pa > 0 then (zOr0 (parseIntZ player.SO) : ℚ) / (pa : ℚ) else 0
  let contactT : List String :=
    if doubles ≥ 35 ∨ kRate < (0.12 : ℚ) then ["C+"]
    else if kRate > (0.25 : ℚ) then ["C-"]
    else []
  let sb := zOr0 (parseIntZ player.SB)
  let speedT : List String :=
    if sb ≥ 20 then ["S+"]
    else if sb = 0 then ["S-"]
    else []
  let posRaw := (player.Pos).getD ""
  let defenseT : List String :=
    if (includesStr posRaw ("C") ∨ includesStr posRaw ("SS") ∨ includesStr posRaw ("CF"))
        ∧ qOr0 (parseFloatQ player.WAR) > (1.5 : ℚ)
    then ["D+"] else []
  String.intercalate (" ") (powerT ++ contactT ++ speedT ++ defenseT)

/-- `calcPitchingTraits` from the source, translated push-by-push. -/
def calcPitchingTraits (player : RawPitchingRow) : String :=
  let ip := qOr0 (parseFloatQ player.IP)
  let so := zOr0 (parseIntZ player.SO)
  let kRate : ℚ := if ip > 0 then ((so : ℚ) * 9) / ip else 0
  let kT : List String := if kRate ≥ 8 then ["K+"] else []
  let hr := zOr0 (parseIntZ player.HR)
  let hr9 : ℚ := if ip > 0 then ((hr : ℚ) * 9) / ip else 0
  let era := qOr0 (parseFloatQ player.ERA)
  let gbT : List String :=
    if hr9 < (0.7 : ℚ) ∧ era < (3.5 : ℚ) then ["GB+"] else []
  let bb := zOr0 (parseIntZ player.BB)
  let bbRate : ℚ := if ip > 0 then ((bb : ℚ) * 9) / ip else 0
  let cnT : List String :=
    if bbRate < 2 then ["CN+"]
    else if bbRate > 4 then ["CN-"]
    else []
  let stT : List String := if ip > (170 : ℚ) then ["ST+"] else []
  String.intercalate (" ") (kT ++ gbT ++ cnT ++ stT)

/-- A normalized batter record.  `id` models JavaScript object identity:
the source removes a chosen batter from the pool with a reference
comparison, and distinct processed records are distinct objects. -/
structure Batter where
  id : Nat
  name : String
  position : String
  handedness : String
  bt : Int
  obt : Int
  traits : String
  games : Int
  war : ℚ
deriving Repr, DecidableEq

/-- A normalized pitcher record (same remark on `id`). -/
structure Pitcher where
  id : Nat
  name : String
  handedness : String
  pd : String
  bt : Int
  obt : Int
  traits : String
  games : Int
  starts : Int
  ip : ℚ
deriving Repr, DecidableEq

/-- The batting-row filter (source lines 209-211): skip a row when the
name or the BA column is falsy, or neither PA nor G parses positive. -/
def acceptBatting (player : RawBattingRow) : Bool :=
  jsTruthy player.Player && jsTruthy player.BA &&
    (decide (zOr0 (parseIntZ player.PA) > 0) || decide (zOr0 (parseIntZ player.G) > 0))

/-- The pitching-row filter (source lines 235-237): skip a row when the
name or the ERA column is falsy, or IP does not parse positive. -/
def acceptPitching (player : RawPitchingRow) : Bool :=
  jsTruthy player.Player && jsTruthy player.ERA &&
    decide (qOr0 (parseFloatQ player.IP) > 0)

/-- The batter record built from one accepted row (id filled in later). -/
def mkBatter (player : RawBattingRow) : Batter where
  id := 0
  name := cleanName player.Player
  position := getPosition player.Pos
  handedness := getHandedness player.Player
  bt := calcBT player.BA
  obt := calcOBT player.OBP
  traits := calcBattingTraits player
  games := zOr0 (parseIntZ player.G)
  war := qOr0 (parseFloatQ player.WAR)

/-- The batter-processing loop: accepted rows in order, each given the
fresh id of its creation rank. -/
def processBatters (rows : List RawBattingRow) : List Batter :=
  ((rows.filter acceptBatting).enum).map (fun p => { mkBatter p.2 with id := p.1 })

/-- The pitcher-processing loop.  The source draws pitcher BT and OBT
from `Math.random`; the generator is modelled as an injected source `rnd`
giving the two draws used for the k-th accepted pitcher. -/
def processPitchers (rnd : Nat → Nat × Nat) (rows : List RawPitchingRow) : List Pitcher :=
  ((rows.filter acceptPitching).enum).map (fun p =>
    { id := p.1
      name := cleanName p.2.Player
      handedness := getHandedness p.2.Player
      pd := calcPD p.2.ERA
      bt := (10 + (rnd p.1).1 % 10 : Nat)
      obt := (15 + (rnd p.1).2 % 10 : Nat)
      traits := calcPitchingTraits p.2
      games := zOr0 (parseIntZ p.2.G)
      starts := zOr0 (parseIntZ p.2.GS)
      ip := qOr0 (parseFloatQ p.2.IP) })

/-- Descending-by-WAR comparison used by `processedBatters.sort`. -/
def warGe (a b : Batter) : Prop := b.war ≤ a.war

instance : DecidableRel warGe := fun a b => inferInstanceAs (Decidable (b.war ≤ a.war))

instance : IsTotal Batter warGe := ⟨fun a b => le_total b.war a.war⟩

instance : IsTrans Batter warGe := ⟨fun _ _ _ h1 h2 => le_trans h2 h1⟩

/-- The stable descending WAR sort of the source. -/
def sortByWarDesc (l : List Batter) : List Batter :=
  l.insertionSort warGe

/-- Descending-by-IP comparison used on pitcher groups. -/
def ipGe (a b : Pitcher) : Prop := b.ip ≤ a.ip

instance : DecidableRel ipGe := fun a b => inferInstanceAs (Decidable (b.ip ≤ a.ip))

instance : IsTotal Pitcher ipGe := ⟨fun a b => le_total b.ip a.ip⟩

instance : IsTrans Pitcher ipGe := ⟨fun _ _ _ h1 h2 => le_trans h2 h1⟩

/-- The stable descending IP sort of the source. -/
def sortByIpDesc (l : List Pitcher) : List Pitcher :=
  l.insertionSort ipGe

/-- The starter test of the source:
`p.starts > 5 || (p.games > 0 && p.starts / p.games > 0.5)`. -/
def isStarterP (p : Pitcher) : Bool :=
  decide (p.starts > 5) ||
    (decide (p.games > 0) && decide ((p.starts : ℚ) / (p.games : ℚ) > (0.5 : ℚ)))

/-- The starting rotation cut: qualifying pitchers, IP-sorted, top 5. -/
def startersOf (ps : List Pitcher) : List Pitcher :=
  (sortByIpDesc (ps.filter isStarterP)).take 5

/-- The bullpen cut: non-qualifying pitchers, IP-sorted, top 7. -/
def relieversOf (ps : List Pitcher) : List Pitcher :=
  (sortByIpDesc (ps.filter (fun p => !(isStarterP p)))).take 7

/-- The flexible-role test of the utility fallback. -/
def flexPos (p : Batter) : Bool :=
  p.position == "UT" || p.position == "OF" || p.position == "DH"

/-- One iteration of the lineup loop (source lines 273-294): take the
first remaining batter at the slot position, else the first flexible
batter reassigned, else the first remaining batter reassigned; remove
the chosen batter from the pool.  An empty pool adds nothing. -/
def pickForSlot (pos : String) (remaining : List Batter) : Option Batter × List Batter :=
  match remaining.filter (fun p => p.position == pos) with
  | chosen :: _ => (some chosen, remaining.filter (fun p => p.id != chosen.id))
  | [] =>
    match remaining.find? flexPos with
    | some utility =>
        (some { utility with position := pos }, remaining.filter (fun p => p.id != utility.id))
    | none =>
      match remaining with
      | best :: rest => (some { best with position := pos }, rest)
      | [] => (none, [])

/-- The lineup loop over the fixed slot order, returning the lineup and
the batters still unassigned. -/
def fillSlots : List String → List Batter → List Batter × List Batter
  | [], remaining => ([], remaining)
  | pos :: rest, remaining =>
    match pickForSlot pos remaining with
    | (some chosen, r2) =>
        let pr := fillSlots rest r2
        (chosen :: pr.1, pr.2)
    | (none, r2) => fillSlots rest r2

/-- The fixed slot order of the source. -/
def fieldPositions : List String :=
  ["C", "1B", "2B", "3B", "SS", "LF", "CF", "RF"]

/-- The while-loop padding of the source in closed form: starting from
`l`, push `mk (current length + 1)` until the target length is reached.
The source's placeholder objects are fresh, so their model ids are drawn
from a range no processed record of a realistic pool occupies. -/
def padWith (mk : Nat → α) (target : Nat) (l : List α) : List α :=
  l ++ (List.range (target - l.length)).map (fun i => mk (l.length + i + 1))

/-- Bench placeholder (source lines 304-313).  The source object carries
no games or war fields; the model fills zeros. -/
def benchPlaceholder (n : Nat) : Batter where
  id := 1000000 + n
  name := "Bench Player " ++ toString n
  position := "UT"
  handedness := "R"
  bt := 20
  obt := 25
  traits := ""
  games := 0
  war := 0

/-- Rotation placeholder (source lines 316-325). -/
def starterPlaceholder (n : Nat) : Pitcher where
  id := 2000000 + n
  name := "Starting Pitcher " ++ toString n
  handedness := "R"
  pd := "d4"
  bt := 15
  obt := 20
  traits := ""
  games := 0
  starts := 0
  ip := 0

/-- Bullpen placeholder (source lines 328-337). -/
def relieverPlaceholder (n : Nat) : Pitcher where
  id := 3000000 + n
  name := "Relief Pitcher " ++ toString n
  handedness := "R"
  pd := "d4"
  bt := 12
  obt := 18
  traits := ""
  games := 0
  starts := 0
  ip := 0

/-- The finished roster object. -/
structure Roster where
  positionPlayers : List Batter
  startingPitchers : List Pitcher
  reliefPitchers : List Pitcher
deriving Repr, DecidableEq

/-- The body of `generateRoster` (source lines 203-343) on already-parsed
row lists: normalize, sort, split the pitchers, fill the lineup, take the
bench, pad the bench and both pitcher groups. -/
def generateRoster (rnd : Nat → Nat × Nat) (battingStats : List RawBattingRow)
    (pitchingStats : List RawPitchingRow) : Roster :=
  let processedBatters := sortByWarDesc (processBatters battingStats)
  let processedPitchers := processPitchers rnd pitchingStats
  let starters := startersOf processedPitchers
  let relievers := relieversOf processedPitchers
  let lr := fillSlots fieldPositions processedBatters
  let bench := lr.2.take 4
  let finalBench := padWith benchPlaceholder 4 bench
  let finalStarters := padWith starterPlaceholder 5 starters
  let finalRelievers := padWith relieverPlaceholder 7 relievers
  { positionPlayers := lr.1 ++ finalBench
    startingPitchers := finalStarters
    reliefPitchers := finalRelievers }

/-- The component state read and written by the generate button. -/
structure GenState where
  battingStats : Option (List RawBattingRow)
  pitchingStats : Option (List RawPitchingRow)
  roster : Roster
deriving Repr

/-- The alert text of the missing-input guard. -/
def missingInputMsg : String :=
  "Please upload both batting and pitching stats files with valid data."

/-- The generate-button handler (source lines 195-350): when either stat
source is absent (`null`) or empty, alert and change nothing; otherwise
overwrite the roster.  Returns the new state and the alert message, if
any. -/
def generateRosterUpdate (rnd : Nat → Nat × Nat) (s : GenState) : GenState × Option String :=
  match s.battingStats, s.pitchingStats with
  | some b, some p =>
    if b.length = 0 ∨ p.length = 0 then (s, some missingInputMsg)
    else ({ s with roster := generateRoster rnd b p }, none)
  | _, _ => (s, some missingInputMsg)

/-! Specification-side definitions, written from the spec's wording, to be
compared with the source-side definitions above. -/

/-- The spec's starter rule: gamesStarted>5, or (games>0 and
gamesStarted/games>0.5). -/
def specIsStarter (p : Pitcher) : Prop :=
  p.starts > 5 ∨ (p.games > 0 ∧ (p.starts : ℚ) / (p.games : ℚ) > (0.5 : ℚ))

instance (p : Pitcher) : Decidable (specIsStarter p) :=
  inferInstanceAs (Decidable (_ ∨ _))

/-- The spec's rotation: starter-rule pitchers, sorted descending by
innings pitched (stable), top 5. -/
def specStartersOf (ps : List Pitcher) : List Pitcher :=
  ((ps.filter (fun p => decide (specIsStarter p))).insertionSort ipGe).take 5

/-- The spec's bullpen: the complement, same sort, top 7. -/
def specRelieversOf (ps : List Pitcher) : List Pitcher :=
  ((ps.filter (fun p => decide (¬ specIsStarter p))).insertionSort ipGe).take 7

/-- The spec's batting-row exclusion rule: name absent, or BA absent, or
(PA ≤ 0 and G ≤ 0). -/
def specBattingExcluded (r : RawBattingRow) : Prop :=
  jsTruthy r.Player = false ∨ jsTruthy r.BA = false ∨
    (zOr0 (parseIntZ r.PA) ≤ 0 ∧ zOr0 (parseIntZ r.G) ≤ 0)

/-- The spec's pitching-row exclusion rule: name absent, or ERA absent,
or IP ≤ 0. -/
def specPitchingExcluded (r : RawPitchingRow) : Prop :=
  jsTruthy r.Player = false ∨ jsTruthy r.ERA = false ∨
    qOr0 (parseFloatQ r.IP) ≤ 0

/-- The spec's batter strikeout rate: SO/PA, and 0 when PA is 0. -/
def specBatKRate (r : RawBattingRow) : ℚ :=
  if zOr0 (parseIntZ r.PA) > 0
  then (zOr0 (parseIntZ r.SO) : ℚ) / (zOr0 (parseIntZ r.PA) : ℚ) else 0

/-- Spec power category: HR≥35 or SLG≥0.560 gives P++; else HR≥25 or
SLG≥0.475 gives P+; else HR≤5 gives P-; else no tag. -/
def specPowerTag (r : RawBattingRow) : Option String :=
  if zOr0 (parseIntZ r.HR) ≥ 35 ∨ qOr0 (parseFloatQ r.SLG) ≥ (0.560 : ℚ) then some ("P++")
  else if zOr0 (parseIntZ r.HR) ≥ 25 ∨ qOr0 (parseFloatQ r.SLG) ≥ (0.475 : ℚ) then some ("P+")
  else if zOr0 (parseIntZ r.HR) ≤ 5 then some ("P-")
  else none

/-- Spec contact category: doubles≥35 or K-rate<0.12 gives C+; else
K-rate>0.25 gives C-; else no tag. -/
def specContactTag (r : RawBattingRow) : Option String :=
  if zOr0 (parseIntZ r.doubles) ≥ 35 ∨ specBatKRate r < (0.12 : ℚ) then some ("C+")
  else if specBatKRate r > (0.25 : ℚ) then some ("C-")
  else none

/-- Spec speed category: SB≥20 gives S+; else SB=0 gives S-; else none. -/
def specSpeedTag (r : RawBattingRow) : Option String :=
  if zOr0 (parseIntZ r.SB) ≥ 20 then some ("S+")
  else if zOr0 (parseIntZ r.SB) = 0 then some ("S-")
  else none

/-- Spec defense category: raw position mentions C, SS, or CF, and
WAR>1.5. -/
def specDefenseTag (r : RawBattingRow) : Option String :=
  if (includesStr ((r.Pos).getD "") ("C") ∨ includesStr ((r.Pos).getD "") ("SS")
      ∨ includesStr ((r.Pos).getD "") ("CF"))
      ∧ qOr0 (parseFloatQ r.WAR) > (1.5 : ℚ)
  then some ("D+") else none

/-- Spec pitcher strikeout rate: SO×9/IP, 0 when IP is not positive. -/
def specPitKRate (r : RawPitchingRow) : ℚ :=
  if qOr0 (parseFloatQ r.IP) > 0
  then ((zOr0 (parseIntZ r.SO) : ℚ) * 9) / qOr0 (parseFloatQ r.IP) else 0

/-- Spec pitcher HR-per-9 rate, 0 when IP is not positive. -/
def specPitHR9 (r : RawPitchingRow) : ℚ :=
  if qOr0 (parseFloatQ r.IP) > 0
  then ((zOr0 (parseIntZ r.HR) : ℚ) * 9) / qOr0 (parseFloatQ r.IP) else 0

/-- Spec pitcher BB-per-9 rate, 0 when IP is not positive. -/
def specPitBB9 (r : RawPitchingRow) : ℚ :=
  if qOr0 (parseFloatQ r.IP) > 0
  then ((zOr0 (parseIntZ r.BB) : ℚ) * 9) / qOr0 (parseFloatQ r.IP) else 0

/-- Spec strikeout-artist category: K-rate ≥ 8. -/
def specKTag (r : RawPitchingRow) : Option String :=
  if specPitKRate r ≥ 8 then some ("K+") else none

/-- Spec ground-ball category: HR9 < 0.7 and ERA < 3.5. -/
def specGBTag (r : RawPitchingRow) : Option String :=
  if specPitHR9 r < (0.7 : ℚ) ∧ qOr0 (parseFloatQ r.ERA) < (3.5 : ℚ)
  then some ("GB+") else none

/-- Spec control category: BB9 < 2 gives CN+; else BB9 > 4 gives CN-. -/
def specCNTag (r : RawPitchingRow) : Option String :=
  if specPitBB9 r < 2 then some ("CN+")
  else if specPitBB9 r > 4 then some ("CN-")
  else none

/-- Spec stamina category: IP > 170. -/
def specSTTag (r : RawPitchingRow) : Option String :=
  if qOr0 (parseFloatQ r.IP) > (170 : ℚ) then some ("ST+") else none

/-- Space-join of the category tags that fired, in category order. -/
def joinTags (tags : List (Option String)) : String :=
  String.intercalate (" ") (tags.filterMap id)

/-! Concrete inputs used by witnesses and counterexamples. -/

/-- A fixed stand-in for the random pitcher-rating source. -/
def rndZero : Nat → Nat × Nat := fun _ => (0, 0)

/-- A batting row rejected by the filter: BA present but PA=0 and G=0. -/
def exBatRowRejected : RawBattingRow :=
  { Player := some ("A Hitter"), BA := some (".300"),
    PA := some ("0"), G := some ("0") }

/-- An accepted pitching row qualifying as a starter. -/
def exPitRowStarter : RawPitchingRow :=
  { Player := some ("B Starter"), ERA := some ("3.00"), IP := some ("100"),
    G := some ("30"), GS := some ("30") }

/-- An accepted batting row resolving to catcher. -/
def exBatRowCatcher : RawBattingRow :=
  { Player := some ("Cat Catcher"), Pos := some ("C"), BA := some (".280"),
    PA := some ("500"), G := some ("120"), WAR := some ("3.0") }

/-- An accepted batting row at a chosen raw position, for bulk inputs. -/
def exBatRowAt (nm ps : String) : RawBattingRow :=
  { Player := some nm, Pos := some ps, BA := some (".250"),
    PA := some ("400"), G := some ("100"), WAR := some ("1.0") }

/-- Eight accepted batting rows covering the eight field positions. -/
def exEightBatRows : List RawBattingRow :=
  [exBatRowAt ("B One") ("C"), exBatRowAt ("B Two") ("1B"),
   exBatRowAt ("B Three") ("2B"), exBatRowAt ("B Four") ("3B"),
   exBatRowAt ("B Five") ("SS"), exBatRowAt ("B Six") ("LF"),
   exBatRowAt ("B Seven") ("CF"), exBatRowAt ("B Eight") ("RF")]

/-- A concrete catcher batter used by assembler witnesses. -/
def exCatcherB : Batter :=
  { id := 0, name := "Cat", position := "C", handedness := "R",
    bt := 28, obt := 33, traits := "", games := 120, war := 3 }

/-- A concrete utility batter used by assembler witnesses. -/
def exUtilityB : Batter :=
  { id := 1, name := "Util", position := "UT", handedness := "R",
    bt := 25, obt := 30, traits := "", games := 100, war := 2 }

/-- A concrete starter-qualifying pitcher record. -/
def exStarterP : Pitcher :=
  { id := 0, name := "Ace", handedness := "R", pd := "d12", bt := 10,
    obt := 15, traits := "", games := 30, starts := 30, ip := 180 }

/-- A state with no batting upload, for guard witnesses. -/
def exStateMissing : GenState :=
  { battingStats := none, pitchingStats := some [exPitRowStarter],
    roster := { positionPlayers := [], startingPitchers := [], reliefPitchers := [] } }

/-! Helper lemmas. -/

theorem hasSubstring_head {c d : Char} :
    ∀ hay : List Char, hasSubstring hay [c, d] = true → hasSubstring hay [c] = true := by
  intro hay
  induction hay with
  | nil => intro h; simp [hasSubstring] at h
  | cons a t ih =>
    intro h
    simp only [hasSubstring, Bool.or_eq_true] at h ⊢
    rcases h with h | h
    · left
      simp only [List.isPrefixOf, Bool.and_eq_true] at h ⊢
      exact ⟨h.1, trivial⟩
    · right; exact ih h

theorem includesStr_C_of_CF (s : String) (h : includesStr s ("CF") = true) :
    includesStr s ("C") = true := by
  have h2 : hasSubstring s.data ['C', 'F'] = true := h
  exact hasSubstring_head s.data h2

theorem getPosition_ne_CF (s : Option String) : getPosition s ≠ "CF" := by
  match s with
  | none => decide
  | some str =>
    simp only [getPosition]
    by_cases h0 : str = ""
    · rw [if_pos h0]; decide
    rw [if_neg h0]
    by_cases h1 : includesStr str ("C") = true
    · rw [if_pos h1]; decide
    rw [if_neg h1]
    by_cases h2 : includesStr str ("1B") = true
    · rw [if_pos h2]; decide
    rw [if_neg h2]
    by_cases h3 : includesStr str ("2B") = true
    · rw [if_pos h3]; decide
    rw [if_neg h3]
    by_cases h4 : includesStr str ("3B") = true
    · rw [if_pos h4]; decide
    rw [if_neg h4]
    by_cases h5 : includesStr str ("SS") = true
    · rw [if_pos h5]; decide
    rw [if_neg h5]
    by_cases h6 : includesStr str ("LF") = true
    · rw [if_pos h6]; decide
    rw [if_neg h6]
    by_cases h7 : includesStr str ("CF") = true
    · exact absurd (includesStr_C_of_CF str h7) h1
    rw [if_neg h7]
    by_cases h8 : includesStr str ("RF") = true
    · rw [if_pos h8]; decide
    rw [if_neg h8]
    by_cases h9 : includesStr str ("OF") = true
    · rw [if_pos h9]; decide
    rw [if_neg h9]
    by_cases h10 : includesStr str ("DH") = true
    · rw [if_pos h10]; decide
    rw [if_neg h10]
    decide

theorem processBatters_position_ne_CF (rows : List RawBattingRow) :
    ∀ b ∈ processBatters rows, b.position ≠ "CF" := by
  intro b hb
  unfold processBatters at hb
  rcases List.mem_map.mp hb with ⟨p, _, rfl⟩
  exact getPosition_ne_CF p.2.Pos

theorem pickForSlot_CF_reassigns (remaining : List Batter) (c : Batter) (r2 : List Batter)
    (hall : ∀ b ∈ remaining, b.position ≠ "CF")
    (hpk : pickForSlot ("CF") remaining = (some c, r2)) :
    ∃ u ∈ remaining, u.position ≠ "CF" ∧ c = { u with position := "CF" } := by
  have hfe : remaining.filter (fun p => p.position == "CF") = [] := by
    rw [List.filter_eq_nil_iff]
    intro b hb
    simpa using hall b hb
  unfold pickForSlot at hpk
  rw [hfe] at hpk
  cases hfind : remaining.find? flexPos with
  | some u =>
    rw [hfind] at hpk
    simp only [Prod.mk.injEq, Option.some.injEq] at hpk
    have hu := List.mem_of_find?_eq_some hfind
    exact ⟨u, hu, hall u hu, hpk.1.symm⟩
  | none =>
    rw [hfind] at hpk
    cases remaining with
    | nil => simp at hpk
    | cons b rest =>
      simp only [Prod.mk.injEq, Option.some.injEq] at hpk
      exact ⟨b, List.mem_cons_self b rest, hall b (List.mem_cons_self b rest), hpk.1.symm⟩

/-! Claim theorems. -/

/-- Claim C10: `getPosition` never returns CF (any raw string containing
CF also contains C, which is tested first), so no normalized batter has
resolved position CF, and when a CF-free pool fills the CF slot the
chosen record is a reassigned copy produced by one of the fallbacks. -/
theorem c10_getPosition_never_CF :
    (∀ s : Option String, getPosition s ≠ "CF") ∧
    (∀ rows, ∀ b ∈ processBatters rows, b.position ≠ "CF") ∧
    (∀ remaining c r2, (∀ b ∈ remaining, b.position ≠ "CF") →
      pickForSlot ("CF") remaining = (some c, r2) →
      ∃ u ∈ remaining, u.position ≠ "CF" ∧ c = { u with position := "CF" }) :=
  ⟨getPosition_ne_CF, processBatters_position_ne_CF, pickForSlot_CF_reassigns⟩

set_option maxHeartbeats 1600000 in
/-- Witness for C10 at a concrete normalized catcher. -/
theorem c10_witness :
    ({ mkBatter exBatRowCatcher with id := 0 } : Batter).position ≠ "CF" :=
  c10_getPosition_never_CF.2.1 [exBatRowCatcher]
    ({ mkBatter exBatRowCatcher with id := 0 })
    (by
      have h : processBatters [exBatRowCatcher] =
          [{ mkBatter exBatRowCatcher with id := 0 }] := by
        with_unfolding_all rfl
      rw [h]
      exact List.mem_cons_self _ _)

/-- Claim C4: `calcPD` gives d4 on unparseable ERA and otherwise the tier
of the strict-threshold table; at the boundaries, ERA 2.00 gives d12 and
ERA 1.99 gives d20. -/
theorem c4_calcPD_tiers :
    (∀ s : Option String, parseFloatQ s = none → calcPD s = "d4") ∧
    (∀ (s : Option String) (x : ℚ), parseFloatQ s = some x →
      calcPD s =
        if x < 2 then "d20" else if x < 3 then "d12" else if x < 4 then "d8"
        else if x < 5 then "d4" else if x < 6 then "-d4" else if x < 7 then "-d8"
        else if x < 8 then "-d12" else "-d20") ∧
    calcPD (some ("2.00")) = "d12" ∧ calcPD (some ("1.99")) = "d20" := by
  refine ⟨?_, ?_, by with_unfolding_all decide, by with_unfolding_all decide⟩
  · intro s h; unfold calcPD; rw [h]
  · intro s x h; unfold calcPD; rw [h]

/-- Witness for C4 at a concrete high ERA. -/
theorem c4_witness :
    calcPD (some ("9.50")) =
      (if (9.5 : ℚ) < 2 then "d20" else if (9.5 : ℚ) < 3 then "d12"
       else if (9.5 : ℚ) < 4 then "d8" else if (9.5 : ℚ) < 5 then "d4"
       else if (9.5 : ℚ) < 6 then "-d4" else if (9.5 : ℚ) < 7 then "-d8"
       else if (9.5 : ℚ) < 8 then "-d12" else "-d20") :=
  c4_calcPD_tiers.2.1 (some ("9.50")) (9.5 : ℚ) (by with_unfolding_all decide)

/-- Claim C6: a raw row is excluded exactly under the spec's rule; a
batting row with PA=0 and G=0 is excluded even with BA present; and a
skipped row just drops out of the processed batch. -/
theorem c6_row_filter :
    (∀ r : RawBattingRow, acceptBatting r = false ↔ specBattingExcluded r) ∧
    (∀ r : RawPitchingRow, acceptPitching r = false ↔ specPitchingExcluded r) ∧
    acceptBatting exBatRowRejected = false ∧
    (∀ r rows, acceptBatting r = false → processBatters (r :: rows) = processBatters rows) ∧
    (∀ rnd r rows, acceptPitching r = false →
      processPitchers rnd (r :: rows) = processPitchers rnd rows) := by
  refine ⟨?_, ?_, by decide, ?_, ?_⟩
  · intro r
    unfold acceptBatting specBattingExcluded
    cases hP : jsTruthy r.Player <;> cases hBA : jsTruthy r.BA <;>
      simp [Bool.or_eq_false_iff, decide_eq_false_iff_not, not_lt]
  · intro r
    unfold acceptPitching specPitchingExcluded
    cases hP : jsTruthy r.Player <;> cases hE : jsTruthy r.ERA <;>
      simp [decide_eq_false_iff_not, not_lt]
  · intro r rows h
    unfold processBatters
    rw [List.filter_cons, if_neg (by simp [h])]
  · intro rnd r rows h
    unfold processPitchers
    rw [List.filter_cons, if_neg (by simp [h])]

/-- Witness for C6: the PA=0, G=0 row drops out of the batch. -/
theorem c6_witness : processBatters [exBatRowRejected] = processBatters [] :=
  c6_row_filter.2.2.2.1 exBatRowRejected [] (by decide)

/-- Claim C7: with a stat source absent or empty the generate handler
alerts and leaves the state (and so the previous roster) unchanged; with
both sources non-empty it always succeeds, overwriting only the roster,
with no message and no other error path. -/
theorem c7_missing_input_guard (rnd : Nat → Nat × Nat) (s : GenState) :
    ((s.battingStats = none ∨ s.pitchingStats = none ∨
        s.battingStats = some [] ∨ s.pitchingStats = some []) →
      generateRosterUpdate rnd s = (s, some missingInputMsg)) ∧
    (∀ b p, s.battingStats = some b → s.pitchingStats = some p →
      b ≠ [] → p ≠ [] →
      generateRosterUpdate rnd s =
        ({ s with roster := generateRoster rnd b p }, none)) := by
  obtain ⟨sb, sp, sr⟩ := s
  cases sb with
  | none =>
    refine ⟨fun _ => rfl, ?_⟩
    intro b p hb _ _ _
    exact absurd hb (by simp)
  | some bl =>
    cases sp with
    | none =>
      refine ⟨fun _ => rfl, ?_⟩
      intro b p _ hp _ _
      exact absurd hp (by simp)
    | some pl =>
      constructor
      · intro h
        have hlen : bl.length = 0 ∨ pl.length = 0 := by
          rcases h with h | h | h | h
          · exact absurd h (by simp)
          · exact absurd h (by simp)
          · left
            have h2 : bl = [] := Option.some.inj h
            rw [h2]; rfl
          · right
            have h2 : pl = [] := Option.some.inj h
            rw [h2]; rfl
        simp only [generateRosterUpdate]
        rw [if_pos hlen]
      · intro b p hb hp hnb hnp
        have hb2 : bl = b := Option.some.inj hb
        have hp2 : pl = p := Option.some.inj hp
        subst hb2; subst hp2
        simp only [generateRosterUpdate]
        rw [if_neg (by
          push_neg
          exact ⟨fun hc => hnb (List.eq_nil_of_length_eq_zero hc),
                 fun hc => hnp (List.eq_nil_of_length_eq_zero hc)⟩)]

/-- Witness for C7 at a state with no batting upload. -/
theorem c7_witness :
    generateRosterUpdate rndZero exStateMissing = (exStateMissing, some missingInputMsg) :=
  (c7_missing_input_guard rndZero exStateMissing).1 (Or.inl rfl)

/-- Claim C9: with the random source fixed, generation is a function of
its inputs — equal inputs give equal rosters. -/
theorem c9_deterministic (rnd : Nat → Nat × Nat) (b1 b2 : List RawBattingRow)
    (p1 p2 : List RawPitchingRow) (hb : b1 = b2) (hp : p1 = p2) :
    generateRoster rnd b1 p1 = generateRoster rnd b2 p2 := by
  rw [hb, hp]

/-- Witness for C9 at a concrete run. -/
theorem c9_witness :
    generateRoster rndZero [exBatRowCatcher] [exPitRowStarter] =
      generateRoster rndZero [exBatRowCatcher] [exPitRowStarter] :=
  c9_deterministic rndZero [exBatRowCatcher] [exBatRowCatcher]
    [exPitRowStarter] [exPitRowStarter] rfl rfl

/-- Claim C8: the traits string is the space-join, in fixed category
order, of at most one tag per category, each category decided by its
first matching rule on 0-defaulted stats; in particular the strikeout
rate of a batter with PA not positive is 0. -/
theorem c8_traits_categories :
    (∀ r : RawBattingRow, calcBattingTraits r =
      joinTags [specPowerTag r, specContactTag r, specSpeedTag r, specDefenseTag r]) ∧
    (∀ r : RawPitchingRow, calcPitchingTraits r =
      joinTags [specKTag r, specGBTag r, specCNTag r, specSTTag r]) ∧
    (∀ r : RawBattingRow, zOr0 (parseIntZ r.PA) ≤ 0 → specBatKRate r = 0) := by
  refine ⟨?_, ?_, ?_⟩
  · intro r
    simp only [calcBattingTraits, joinTags, specPowerTag, specContactTag, specSpeedTag,
      specDefenseTag, specBatKRate]
    split_ifs <;> rfl
  · intro r
    simp only [calcPitchingTraits, joinTags, specKTag, specGBTag, specCNTag, specSTTag,
      specPitKRate, specPitHR9, specPitBB9]
    split_ifs <;> rfl
  · intro r h
    unfold specBatKRate
    rw [if_neg (by omega)]

/-- Witness for C8: a row with PA=0 has strikeout rate 0. -/
theorem c8_witness : specBatKRate exBatRowRejected = 0 :=
  c8_traits_categories.2.2 exBatRowRejected (by decide)

theorem isStarterP_eq_decide (p : Pitcher) : isStarterP p = decide (specIsStarter p) := by
  by_cases h1 : p.starts > 5 <;> by_cases h2 : p.games > 0 <;>
    by_cases h3 : (p.starts : ℚ) / (p.games : ℚ) > (0.5 : ℚ) <;>
      simp [isStarterP, specIsStarter, h1, h2, h3]

theorem startersOf_eq_spec (ps : List Pitcher) : startersOf ps = specStartersOf ps := by
  unfold startersOf specStartersOf sortByIpDesc
  rw [List.filter_congr (fun p _ => isStarterP_eq_decide p)]

theorem relieversOf_eq_spec (ps : List Pitcher) : relieversOf ps = specRelieversOf ps := by
  unfold relieversOf specRelieversOf sortByIpDesc
  rw [List.filter_congr (fun p _ => ?_)]
  rw [isStarterP_eq_decide, ← decide_not]

theorem mem_startersOf {ps : List Pitcher} {p : Pitcher} (h : p ∈ startersOf ps) :
    p ∈ ps ∧ isStarterP p = true := by
  unfold startersOf sortByIpDesc at h
  have h2 := (List.take_sublist 5 _).subset h
  have h3 := (List.perm_insertionSort ipGe _).subset h2
  exact ⟨List.mem_of_mem_filter h3, (List.mem_filter.mp h3).2⟩

theorem mem_relieversOf {ps : List Pitcher} {p : Pitcher} (h : p ∈ relieversOf ps) :
    p ∈ ps ∧ isStarterP p = false := by
  unfold relieversOf sortByIpDesc at h
  have h2 := (List.take_sublist 7 _).subset h
  have h3 := (List.perm_insertionSort ipGe _).subset h2
  refine ⟨List.mem_of_mem_filter h3, ?_⟩
  have h4 := (List.mem_filter.mp h3).2
  simp only [Bool.not_eq_true'] at h4
  exact h4

/-- Claim C5: the rotation is exactly the starter-rule pitchers sorted
descending by IP, top 5; the bullpen the complement, top 7; the groups
are disjoint, sorted, of the expected cut lengths; and a qualifying
pitcher can never land in the other group, so one beyond its cut is in
neither group. -/
theorem c5_pitcher_split (ps : List Pitcher) :
    startersOf ps = specStartersOf ps ∧
    relieversOf ps = specRelieversOf ps ∧
    (∀ p ∈ startersOf ps, p ∈ ps ∧ isStarterP p = true) ∧
    (∀ p ∈ relieversOf ps, p ∈ ps ∧ isStarterP p = false) ∧
    List.Sorted ipGe (startersOf ps) ∧
    List.Sorted ipGe (relieversOf ps) ∧
    (startersOf ps).length = min 5 (ps.countP isStarterP) ∧
    (relieversOf ps).length = min 7 (ps.countP (fun p => !(isStarterP p))) ∧
    (∀ p ∈ ps, isStarterP p = true → p ∉ relieversOf ps) ∧
    (∀ p ∈ ps, isStarterP p = false → p ∉ startersOf ps) := by
  refine ⟨startersOf_eq_spec ps, relieversOf_eq_spec ps,
    fun p h => mem_startersOf h, fun p h => mem_relieversOf h, ?_, ?_, ?_, ?_, ?_, ?_⟩
  · exact List.Pairwise.sublist (List.take_sublist 5 _)
      (List.sorted_insertionSort ipGe (ps.filter isStarterP))
  · exact List.Pairwise.sublist (List.take_sublist 7 _)
      (List.sorted_insertionSort ipGe (ps.filter (fun p => !(isStarterP p))))
  · unfold startersOf sortByIpDesc
    rw [List.length_take, List.length_insertionSort, List.countP_eq_length_filter]
  · unfold relieversOf sortByIpDesc
    rw [List.length_take, List.length_insertionSort, List.countP_eq_length_filter]
  · intro p _ hq hmem
    exact absurd (mem_relieversOf hmem).2 (by rw [hq]; simp)
  · intro p _ hq hmem
    exact absurd (mem_startersOf hmem).2 (by rw [hq]; simp)

/-- Witness for C5 at a one-pitcher pool. -/
theorem c5_witness : exStarterP ∈ [exStarterP] ∧ isStarterP exStarterP = true :=
  (c5_pitcher_split [exStarterP]).2.2.1 exStarterP (by with_unfolding_all decide)

/-! Assembler lemmas: ids, pool consumption, and the lineup loop. -/

theorem processBatters_ids (rows : List RawBattingRow) :
    (processBatters rows).map Batter.id = List.range (rows.filter acceptBatting).length := by
  unfold processBatters
  rw [List.map_map]
  have he : (Batter.id ∘ fun p : Nat × RawBattingRow => { mkBatter p.2 with id := p.1 })
      = Prod.fst := rfl
  rw [he, List.enum_map_fst]

theorem processBatters_id_nodup (rows : List RawBattingRow) :
    ((processBatters rows).map Batter.id).Nodup := by
  rw [processBatters_ids]; exact List.nodup_range _

theorem sortByWarDesc_id_nodup {l : List Batter} (h : (l.map Batter.id).Nodup) :
    ((sortByWarDesc l).map Batter.id).Nodup :=
  (((List.perm_insertionSort warGe l).map Batter.id).nodup_iff).mpr h

theorem filter_id_ne_length {l : List Batter} {c : Batter}
    (hnd : (l.map Batter.id).Nodup) (hc : c ∈ l) :
    (l.filter (fun p => p.id != c.id)).length + 1 = l.length := by
  induction l with
  | nil => cases hc
  | cons a t ih =>
    rw [List.map_cons, List.nodup_cons] at hnd
    obtain ⟨ha, ht⟩ := hnd
    rcases List.mem_cons.mp hc with h | h
    · subst h
      have hft : t.filter (fun p => p.id != c.id) = t := by
        rw [List.filter_eq_self]
        intro p hp
        have hne : p.id ≠ c.id := fun he => ha (he ▸ List.mem_map_of_mem Batter.id hp)
        exact bne_iff_ne.mpr hne
      rw [List.filter_cons, if_neg (by simp), hft, List.length_cons]
    · have hane : (a.id != c.id) = true := by
        have hne : a.id ≠ c.id := by
          intro he
          exact ha (he ▸ List.mem_map_of_mem Batter.id h)
        exact bne_iff_ne.mpr hne
      have hih := ih ht h
      simp only [List.filter_cons, if_pos hane, List.length_cons]
      omega

theorem filter_id_nodup {l : List Batter} (q : Batter → Bool)
    (hnd : (l.map Batter.id).Nodup) : ((l.filter q).map Batter.id).Nodup :=
  List.Nodup.sublist ((List.filter_sublist l).map Batter.id) hnd

theorem pickForSlot_nil (pos : String) : pickForSlot pos [] = (none, []) := rfl

theorem not_mem_map_id_filter_ne (l : List Batter) (c : Batter) :
    c.id ∉ (l.filter (fun p => p.id != c.id)).map Batter.id := by
  intro hcontra
  obtain ⟨y, hy, hyid⟩ := List.mem_map.mp hcontra
  exact absurd hyid (bne_iff_ne.mp (List.mem_filter.mp hy).2)

theorem pickForSlot_succ (pos : String) (remaining : List Batter)
    (hnd : (remaining.map Batter.id).Nodup) (hne : remaining ≠ []) :
    ∃ c r2, pickForSlot pos remaining = (some c, r2) ∧
      c.position = pos ∧
      r2.length + 1 = remaining.length ∧
      ((r2.map Batter.id).Nodup) ∧
      (∀ x ∈ r2, x ∈ remaining) ∧
      c.id ∈ remaining.map Batter.id ∧
      c.id ∉ r2.map Batter.id := by
  unfold pickForSlot
  cases hf : remaining.filter (fun p => p.position == pos) with
  | cons chosen tl =>
    have hcm : chosen ∈ remaining.filter (fun p => p.position == pos) := by
      rw [hf]; exact List.mem_cons_self _ _
    obtain ⟨hcr, hcp⟩ := List.mem_filter.mp hcm
    refine ⟨chosen, _, rfl, by simpa using hcp, ?_, ?_, ?_, ?_, ?_⟩
    · exact filter_id_ne_length hnd hcr
    · exact filter_id_nodup _ hnd
    · intro x hx; exact List.mem_of_mem_filter hx
    · exact List.mem_map_of_mem Batter.id hcr
    · exact not_mem_map_id_filter_ne remaining chosen
  | nil =>
    cases hfo : remaining.find? flexPos with
    | some u =>
      have hu : u ∈ remaining := List.mem_of_find?_eq_some hfo
      refine ⟨{ u with position := pos }, _, rfl, rfl, ?_, ?_, ?_, ?_, ?_⟩
      · exact filter_id_ne_length hnd hu
      · exact filter_id_nodup _ hnd
      · intro x hx; exact List.mem_of_mem_filter hx
      · show u.id ∈ remaining.map Batter.id
        exact List.mem_map_of_mem Batter.id hu
      · show u.id ∉ _
        exact not_mem_map_id_filter_ne remaining u
    | none =>
      cases remaining with
      | nil => exact absurd rfl hne
      | cons best rest =>
        rw [List.map_cons, List.nodup_cons] at hnd
        refine ⟨{ best with position := pos }, rest, rfl, rfl, rfl, hnd.2, ?_, ?_, hnd.1⟩
        · intro x hx; exact List.mem_cons_of_mem best hx
        · show best.id ∈ (best :: rest).map Batter.id
          rw [List.map_cons]; exact List.mem_cons_self _ _

theorem fillSlots_spec (ps : List String) :
    ∀ remaining : List Batter, (remaining.map Batter.id).Nodup →
      ((fillSlots ps remaining).1.length = min remaining.length ps.length) ∧
      ((fillSlots ps remaining).2.length = remaining.length - ps.length) ∧
      ((((fillSlots ps remaining).1 ++ (fillSlots ps remaining).2).map Batter.id).Nodup) ∧
      (∀ x ∈ (fillSlots ps remaining).1 ++ (fillSlots ps remaining).2,
          x.id ∈ remaining.map Batter.id) ∧
      (ps.length ≤ remaining.length →
        (fillSlots ps remaining).1.map Batter.position = ps) := by
  induction ps with
  | nil =>
    intro remaining hnd
    refine ⟨by simp [fillSlots], by simp [fillSlots], by simpa [fillSlots] using hnd, ?_, ?_⟩
    · intro x hx
      simp only [fillSlots, List.nil_append] at hx
      exact List.mem_map_of_mem Batter.id hx
    · intro _; simp [fillSlots]
  | cons pos rest ih =>
    intro remaining hnd
    by_cases hre : remaining = []
    · subst hre
      have heq : fillSlots (pos :: rest) [] = fillSlots rest [] := by
        simp only [fillSlots, pickForSlot_nil]
      obtain ⟨ih1, ih2, ih3, ih4, ih5⟩ := ih [] (by simp)
      rw [heq]
      refine ⟨?_, ?_, ih3, ih4, ?_⟩
      · rw [ih1]; simp
      · rw [ih2]; simp
      · intro h; simp at h
    · obtain ⟨c, r2, hpk, hcpos, hlen, hnd2, hsub, hcin, hcout⟩ :=
        pickForSlot_succ pos remaining hnd hre
      have heq : fillSlots (pos :: rest) remaining =
          (c :: (fillSlots rest r2).1, (fillSlots rest r2).2) := by
        simp only [fillSlots, hpk]
      obtain ⟨ih1, ih2, ih3, ih4, ih5⟩ := ih r2 hnd2
      rw [heq]
      refine ⟨?_, ?_, ?_, ?_, ?_⟩
      · simp only [List.length_cons, ih1, List.length_cons]
        omega
      · simp only [ih2, List.length_cons]
        omega
      · rw [List.cons_append, List.map_cons, List.nodup_cons]
        refine ⟨?_, ih3⟩
        intro hc
        obtain ⟨y, hy, hyid⟩ := List.mem_map.mp hc
        have h4 := ih4 y hy
        rw [hyid] at h4
        exact hcout h4
      · intro x hx
        rw [List.cons_append, List.mem_cons] at hx
        rcases hx with rfl | hx
        · exact hcin
        · obtain ⟨y, hy, hyid⟩ := List.mem_map.mp (ih4 x hx)
          exact hyid ▸ List.mem_map_of_mem Batter.id (hsub y hy)
      · intro hle
        rw [List.length_cons] at hle
        have hr : rest.length ≤ r2.length := by omega
        rw [List.map_cons, ih5 hr, hcpos]

theorem padWith_length {α : Type} (mk : Nat → α) (target : Nat) (l : List α) :
    (padWith mk target l).length = l.length + (target - l.length) := by
  simp [padWith]

theorem generateRoster_eq (rnd : Nat → Nat × Nat) (bats : List RawBattingRow)
    (pits : List RawPitchingRow) :
    generateRoster rnd bats pits =
      { positionPlayers := (fillSlots fieldPositions (sortByWarDesc (processBatters bats))).1
          ++ padWith benchPlaceholder 4
              ((fillSlots fieldPositions (sortByWarDesc (processBatters bats))).2.take 4)
        startingPitchers := padWith starterPlaceholder 5 (startersOf (processPitchers rnd pits))
        reliefPitchers := padWith relieverPlaceholder 7 (relieversOf (processPitchers rnd pits)) } :=
  rfl

/-- Counterexample to C1 as stated: a non-empty batting upload whose only
row is rejected gives a roster with 4 position players, not 12 — the
lineup is never padded. -/
theorem c1_counterexample :
    (generateRoster rndZero [exBatRowRejected] [exPitRowStarter]).positionPlayers.length = 4 ∧
    (generateRoster rndZero [exBatRowRejected] [exPitRowStarter]).positionPlayers.length ≠ 12 := by
  constructor <;> with_unfolding_all decide

/-- Claim C1 (amended): the rotation always has length exactly 5 and the
bullpen exactly 7, via placeholder padding; the bench is padded to 4, but
the lineup is not padded, so `positionPlayers` has length
min(accepted batters, 8) + 4 — equal to 12 only when at least 8 batters
are accepted. -/
theorem c1_amended_group_lengths (rnd : Nat → Nat × Nat) (bats : List RawBattingRow)
    (pits : List RawPitchingRow) :
    (generateRoster rnd bats pits).startingPitchers.length = 5 ∧
    (generateRoster rnd bats pits).reliefPitchers.length = 7 ∧
    (generateRoster rnd bats pits).positionPlayers.length
      = min (processBatters bats).length 8 + 4 := by
  have hnd := sortByWarDesc_id_nodup (processBatters_id_nodup bats)
  obtain ⟨f1, f2, _, _, _⟩ :=
    fillSlots_spec fieldPositions (sortByWarDesc (processBatters bats)) hnd
  have hsl : (sortByWarDesc (processBatters bats)).length = (processBatters bats).length :=
    (List.perm_insertionSort warGe _).length_eq
  rw [generateRoster_eq]
  refine ⟨?_, ?_, ?_⟩
  · rw [padWith_length]
    have h5 : (startersOf (processPitchers rnd pits)).length ≤ 5 := by
      unfold startersOf
      rw [List.length_take]
      omega
    omega
  · rw [padWith_length]
    have h7 : (relieversOf (processPitchers rnd pits)).length ≤ 7 := by
      unfold relieversOf
      rw [List.length_take]
      omega
    omega
  · rw [List.length_append, padWith_length]
    have hb : (((fillSlots fieldPositions (sortByWarDesc (processBatters bats))).2.take 4)).length
        ≤ 4 := by
      rw [List.length_take]; omega
    have hfp : fieldPositions.length = 8 := rfl
    rw [hfp] at f1
    rw [f1, hsl]
    omega

/-- Counterexample to C2 as stated: with one accepted batter (non-empty
input) the first 8 position players are one catcher and four UT bench
placeholders — their positions are not a permutation of the 8 field
positions. -/
theorem c2_counterexample :
    ¬ (((generateRoster rndZero [exBatRowCatcher] [exPitRowStarter]).positionPlayers.take 8).map
        Batter.position).Perm fieldPositions := by
  with_unfolding_all decide

/-- Claim C2 (amended): with at least 8 accepted batters the 8 lineup
slots carry positions exactly C,1B,2B,3B,SS,LF,CF,RF (a permutation with
no duplicates), and — for any input — no batter record appears in two
lineup or bench slots; with fewer than 8 accepted batters the roster has
fewer than 8 lineup slots. -/
theorem c2_amended_lineup (rnd : Nat → Nat × Nat) (bats : List RawBattingRow)
    (pits : List RawPitchingRow) :
    (8 ≤ (processBatters bats).length →
      ((generateRoster rnd bats pits).positionPlayers.take 8).map Batter.position
        = fieldPositions) ∧
    ((((fillSlots fieldPositions (sortByWarDesc (processBatters bats))).1
        ++ (fillSlots fieldPositions (sortByWarDesc (processBatters bats))).2.take 4).map
          Batter.id).Nodup) := by
  have hnd := sortByWarDesc_id_nodup (processBatters_id_nodup bats)
  obtain ⟨f1, f2, f3, f4, f5⟩ :=
    fillSlots_spec fieldPositions (sortByWarDesc (processBatters bats)) hnd
  have hsl : (sortByWarDesc (processBatters bats)).length = (processBatters bats).length :=
    (List.perm_insertionSort warGe _).length_eq
  have hfp : fieldPositions.length = 8 := rfl
  constructor
  · intro h8
    have hlu : (fillSlots fieldPositions (sortByWarDesc (processBatters bats))).1.length = 8 := by
      rw [hfp] at f1
      rw [f1, hsl]
      omega
    rw [generateRoster_eq]
    have htake :
        ((fillSlots fieldPositions (sortByWarDesc (processBatters bats))).1
            ++ padWith benchPlaceholder 4
              ((fillSlots fieldPositions (sortByWarDesc (processBatters bats))).2.take 4)).take 8
          = (fillSlots fieldPositions (sortByWarDesc (processBatters bats))).1 := by
      rw [← hlu]
      exact List.take_left _ _
    rw [htake]
    exact f5 (by rw [hfp, hsl]; omega)
  · refine List.Nodup.sublist ?_ f3
    exact ((List.take_sublist 4 _).append_left _).map Batter.id

set_option maxHeartbeats 1600000 in
/-- Witness for C2 (amended) at an eight-batter input. -/
theorem c2_witness :
    ((generateRoster rndZero exEightBatRows []).positionPlayers.take 8).map Batter.position
      = fieldPositions :=
  (c2_amended_lineup rndZero exEightBatRows []).1 (by with_unfolding_all decide)

theorem sorted_filter_head_max {l : List Batter} {q : Batter → Bool} {c : Batter}
    {tl : List Batter} (hs : List.Sorted warGe l) (hf : l.filter q = c :: tl) :
    ∀ x ∈ l, q x = true → x.war ≤ c.war := by
  induction l with
  | nil => simp at hf
  | cons a t ih =>
    rw [List.sorted_cons] at hs
    obtain ⟨hrel, hst⟩ := hs
    rw [List.filter_cons] at hf
    by_cases hqa : q a = true
    · rw [if_pos hqa] at hf
      injection hf with hac htl
      subst hac
      intro x hx hqx
      rcases List.mem_cons.mp hx with rfl | hx
      · exact le_refl _
      · exact hrel x hx
    · rw [if_neg hqa] at hf
      intro x hx hqx
      rcases List.mem_cons.mp hx with rfl | hx
      · exact absurd hqx hqa
      · exact ih hst hf x hx hqx

theorem sorted_find_max {l : List Batter} {q : Batter → Bool} {u : Batter}
    (hs : List.Sorted warGe l) (hf : l.find? q = some u) :
    ∀ x ∈ l, q x = true → x.war ≤ u.war := by
  induction l with
  | nil => simp at hf
  | cons a t ih =>
    rw [List.sorted_cons] at hs
    obtain ⟨hrel, hst⟩ := hs
    by_cases hqa : q a = true
    · rw [List.find?_cons_of_pos t hqa] at hf
      injection hf with hau
      subst hau
      intro x hx hqx
      rcases List.mem_cons.mp hx with rfl | hx
      · exact le_refl _
      · exact hrel x hx
    · rw [List.find?_cons_of_neg t hqa] at hf
      intro x hx hqx
      rcases List.mem_cons.mp hx with rfl | hx
      · exact absurd hqx hqa
      · exact ih hst hf x hx hqx

theorem sorted_head_max {b : Batter} {rest : List Batter}
    (hs : List.Sorted warGe (b :: rest)) : ∀ x ∈ b :: rest, x.war ≤ b.war := by
  rw [List.sorted_cons] at hs
  intro x hx
  rcases List.mem_cons.mp hx with rfl | hx
  · exact le_refl _
  · exact hs.1 x hx

/-- Claim C3: on a WAR-sorted pool, a slot takes the highest-WAR batter
whose position matches; failing that the highest-WAR UT/OF/DH batter,
reassigned; failing that the highest-WAR batter overall, reassigned; and
the chosen batter is removed from the pool handed to the next slot. -/
theorem c3_slot_selection (pos : String) (remaining : List Batter)
    (hs : List.Sorted warGe remaining)
    (hnd : (remaining.map Batter.id).Nodup) :
    ((∃ p ∈ remaining, p.position = pos) →
      ∃ c, c ∈ remaining ∧ c.position = pos ∧
        (∀ q ∈ remaining, q.position = pos → q.war ≤ c.war) ∧
        pickForSlot pos remaining =
          (some c, remaining.filter (fun p => p.id != c.id)) ∧
        c.id ∉ ((pickForSlot pos remaining).2.map Batter.id)) ∧
    ((¬ ∃ p ∈ remaining, p.position = pos) → (∃ p ∈ remaining, flexPos p = true) →
      ∃ u, u ∈ remaining ∧ flexPos u = true ∧
        (∀ q ∈ remaining, flexPos q = true → q.war ≤ u.war) ∧
        pickForSlot pos remaining =
          (some { u with position := pos }, remaining.filter (fun p => p.id != u.id)) ∧
        u.id ∉ ((pickForSlot pos remaining).2.map Batter.id)) ∧
    ((¬ ∃ p ∈ remaining, p.position = pos) → (¬ ∃ p ∈ remaining, flexPos p = true) →
      ∀ b rest, remaining = b :: rest →
        (∀ q ∈ remaining, q.war ≤ b.war) ∧
        pickForSlot pos remaining = (some { b with position := pos }, rest) ∧
        b.id ∉ (rest.map Batter.id)) := by
  refine ⟨?_, ?_, ?_⟩
  · intro hex
    cases hf : remaining.filter (fun p => p.position == pos) with
    | nil =>
      exfalso
      obtain ⟨p, hp, hpp⟩ := hex
      have : p ∈ remaining.filter (fun p => p.position == pos) :=
        List.mem_filter.mpr ⟨hp, by simp [hpp]⟩
      rw [hf] at this
      cases this
    | cons chosen tl =>
      have hcm : chosen ∈ remaining.filter (fun p => p.position == pos) := by
        rw [hf]; exact List.mem_cons_self _ _
      obtain ⟨hcr, hcp⟩ := List.mem_filter.mp hcm
      have hpk : pickForSlot pos remaining =
          (some chosen, remaining.filter (fun p => p.id != chosen.id)) := by
        unfold pickForSlot
        rw [hf]
      refine ⟨chosen, hcr, by simpa using hcp, ?_, hpk, ?_⟩
      · intro x hx hxp
        exact sorted_filter_head_max hs hf x hx (by simp [hxp])
      · rw [hpk]
        exact not_mem_map_id_filter_ne remaining chosen
  · intro hnex hflex
    have hf : remaining.filter (fun p => p.position == pos) = [] := by
      rw [List.filter_eq_nil_iff]
      intro p hp
      simp only [beq_iff_eq]
      intro hc
      exact hnex ⟨p, hp, by simpa using hc⟩
    cases hfo : remaining.find? flexPos with
    | none =>
      exfalso
      obtain ⟨p, hp, hpp⟩ := hflex
      exact absurd hpp (List.find?_eq_none.mp hfo p hp)
    | some u =>
      have hu : u ∈ remaining := List.mem_of_find?_eq_some hfo
      have hpk : pickForSlot pos remaining =
          (some { u with position := pos }, remaining.filter (fun p => p.id != u.id)) := by
        unfold pickForSlot
        rw [hf, hfo]
      refine ⟨u, hu, List.find?_some hfo, ?_, hpk, ?_⟩
      · intro x hx hxp
        exact sorted_find_max hs hfo x hx hxp
      · rw [hpk]
        exact not_mem_map_id_filter_ne remaining u
  · intro hnex hnflex b rest hbr
    subst hbr
    have hf : (b :: rest).filter (fun p => p.position == pos) = [] := by
      rw [List.filter_eq_nil_iff]
      intro p hp
      simp only [beq_iff_eq]
      intro hc
      exact hnex ⟨p, hp, by simpa using hc⟩
    have hfo : (b :: rest).find? flexPos = none := by
      rw [List.find?_eq_none]
      intro x hx hxf
      exact hnflex ⟨x, hx, hxf⟩
    have hpk : pickForSlot pos (b :: rest) = (some { b with position := pos }, rest) := by
      unfold pickForSlot
      rw [hf, hfo]
    rw [List.map_cons, List.nodup_cons] at hnd
    exact ⟨sorted_head_max hs, hpk, hnd.1⟩

/-- Witness for C3: the C slot on a two-batter sorted pool. -/
theorem c3_witness :
    ∃ c, c ∈ [exCatcherB, exUtilityB] ∧ c.position = "C" ∧
      (∀ q ∈ [exCatcherB, exUtilityB], q.position = "C" → q.war ≤ c.war) ∧
      pickForSlot ("C") [exCatcherB, exUtilityB] =
        (some c, [exCatcherB, exUtilityB].filter (fun p => p.id != c.id)) ∧
      c.id ∉ (((pickForSlot ("C") [exCatcherB, exUtilityB]).2).map Batter.id) :=
  (c3_slot_selection ("C") [exCatcherB, exUtilityB]
      (by with_unfolding_all decide) (by decide)).1
    ⟨exCatcherB, List.mem_cons_self _ _, rfl⟩

end Deadball
